import Mathlib

/-!
Verification of the ElProfessor head-wobbler movement scheduler
(`src/elprofessor/audio/head_wobbler.py`, class `HeadWobbler`).

The development contains three shallow embeddings of the relevant code:

1. a pure, sequential model `runBatch` of the inner per-record dispatch
   loop of `HeadWobbler.working_loop` (lines 342-410), used for the
   claims about lag recovery, suppression and the deadband;
2. pure functional models of the entry points `feed`, `set_robot_speaking`,
   `reset`, `stop`, `start` and `_reset_to_base_pose` acting on a
   `WState` record, used for the postcondition / frame-effect /
   idempotence claims;
3. a small-step interleaving machine (`Step` / `Steps`) covering the
   dispatch thread of `working_loop` together with concurrent calls of
   `reset`, `feed`, `set_robot_speaking` and the stop request, used for
   the temporal claims (generation/cancellation, loop liveness) and the
   hops/generation invariant.

Time is modelled by rationals (the Python code uses `time.monotonic()`
floats).  The envelope engine `SwayRollRT` lives in
`elprofessor/audio/speech_tapper.py`, which is not part of the sources
under verification; it is treated as the opaque external collaborator the
spec describes: its internal state is an abstract `Nat` (reset to `0`),
and its `feed` is an arbitrary parameter that either returns a list of
offset records or fails (raising an exception).  Likewise the hop length
`HOP_MS / 1000` is an engine-defined parameter `hopDt`.
-/

/-- One offset record produced by the envelope engine for one hop, as
consumed by `working_loop` (keys `x_mm` .. `yaw_rad`, lines 376-384). -/
structure Rec where
  x_mm : ℚ
  y_mm : ℚ
  z_mm : ℚ
  roll_rad : ℚ
  pitch_rad : ℚ
  yaw_rad : ℚ
deriving DecidableEq, Repr

/-- A queued audio chunk: the generation stamp and the decoded samples
(the tuple `(generation, SAMPLE_RATE, buf)` put on `audio_queue`; the
constant sample rate is irrelevant to every claim and omitted). -/
structure Chunk where
  gen : Nat
  data : List Int
deriving DecidableEq, Repr

/-- `MOVEMENT_LATENCY_S = 0.08` (head_wobbler.py line 27). -/
def MOVEMENT_LATENCY_S : ℚ := 2 / 25

/-- The offsets tuple passed to `_apply_offsets`: millimetres are
converted to metres, radians kept (lines 377-384). -/
def toOffsets (r : Rec) : ℚ × ℚ × ℚ × ℚ × ℚ × ℚ :=
  (r.x_mm / 1000, r.y_mm / 1000, r.z_mm / 1000, r.roll_rad, r.pitch_rad, r.yaw_rad)

/-- The deadband test of line 403: the offsets are applied only if some
rotational component strictly exceeds `0.001`. -/
def significant (r : Rec) : Bool :=
  (1 / 1000 < |r.roll_rad|) || (1 / 1000 < |r.pitch_rad|) || (1 / 1000 < |r.yaw_rad|)

/-- Observable events of one batch of the dispatch loop. -/
inductive BEv where
  /-- `self._hops_done += drop; i += drop` with `drop > 0` (lines 363-368):
  lagged hops dropped without an actuator call. -/
  | dropped (n : Nat)
  /-- `robot_speaking` was false: hop skipped, `hops_done` advanced (lines 393-400). -/
  | skippedNotSpeaking
  /-- all rotational components within the deadband: no actuator call,
  `hops_done` advanced (line 403 test false). -/
  | skippedDeadband
  /-- `self._apply_offsets(offsets)` was called (line 406). -/
  | applied (o : ℚ × ℚ × ℚ × ℚ × ℚ × ℚ)
deriving DecidableEq, Repr

/-- `drop = min(lag_hops, len(results) - i - 1)` (lines 361-362):
`lag_hops = int((now - target) / hop_dt)` capped so that at least the last
record of the batch survives (`remMinusOne` is `len(results) - i - 1`). -/
def lagDropCount (hopDt now target : ℚ) (remMinusOne : Nat) : Nat :=
  min (((now - target) / hopDt).floor.toNat) remMinusOne

/-- Sequential model of the inner loop of `working_loop` over one batch of
engine results (lines 342-410), with no concurrent interference: the
generation never changes, `speaking` is the fixed value read at each hop,
`base` is the anchored `base_ts`.  State threaded through: `(hops_done,
now)`; `now` models `time.monotonic()`, advanced by `time.sleep` (line
371) to the target instant.  Per iteration, with
`target = base + MOVEMENT_LATENCY_S + hops_done * hopDt` (line 357):
if `now - target >= hopDt` and `drop = min lag_hops (remaining - 1) > 0`
the loop drops `drop` records (lines 360-368) and continues; otherwise it
sleeps until `target` if needed (lines 370-371), then either skips the hop
(not speaking, lines 393-400), applies it (deadband passed, line 406) or
skips it (deadband, line 403), always advancing `hops_done` by one. -/
def runBatch (hopDt : ℚ) (speaking : Bool) (base : ℚ) :
    List Rec → Nat → ℚ → Nat × ℚ × List BEv
  | [], hops, now => (hops, now, [])
  | r :: rest, hops, now =>
    let target := base + MOVEMENT_LATENCY_S + hops * hopDt
    if h : hopDt ≤ now - target ∧ 0 < lagDropCount hopDt now target rest.length then
      let drop := lagDropCount hopDt now target rest.length
      let out := runBatch hopDt speaking base (List.drop drop (r :: rest)) (hops + drop) now
      (out.1, out.2.1, .dropped drop :: out.2.2)
    else
      let now' := max now target
      if speaking then
        if significant r then
          let out := runBatch hopDt speaking base rest (hops + 1) now'
          (out.1, out.2.1, .applied (toOffsets r) :: out.2.2)
        else
          let out := runBatch hopDt speaking base rest (hops + 1) now'
          (out.1, out.2.1, .skippedDeadband :: out.2.2)
      else
        let out := runBatch hopDt speaking base rest (hops + 1) now'
        (out.1, out.2.1, .skippedNotSpeaking :: out.2.2)
termination_by l _ _ => l.length
decreasing_by
  · have h2 : lagDropCount hopDt now (base + MOVEMENT_LATENCY_S + hops * hopDt) rest.length
        ≤ rest.length := min_le_right _ _
    obtain ⟨-, h1⟩ := h
    unfold target at h1
    simp only [List.length_drop, List.length_cons]
    omega
  · simp [Nat.lt_succ_self]
  · simp [Nat.lt_succ_self]
  · simp [Nat.lt_succ_self]

set_option maxHeartbeats 1000000 in
theorem runBatch_nil (hopDt : ℚ) (sp : Bool) (base : ℚ) (hops : Nat) (now : ℚ) :
    runBatch hopDt sp base [] hops now = (hops, now, []) := by
  rw [runBatch.eq_def]

theorem runBatch_cons_lag (hopDt : ℚ) (sp : Bool) (base : ℚ) (r : Rec) (rest : List Rec)
    (hops : Nat) (now : ℚ)
    (h : hopDt ≤ now - (base + MOVEMENT_LATENCY_S + hops * hopDt) ∧
      0 < lagDropCount hopDt now (base + MOVEMENT_LATENCY_S + hops * hopDt) rest.length) :
    runBatch hopDt sp base (r :: rest) hops now =
      ((runBatch hopDt sp base
          (List.drop (lagDropCount hopDt now (base + MOVEMENT_LATENCY_S + hops * hopDt) rest.length)
            (r :: rest))
          (hops + lagDropCount hopDt now (base + MOVEMENT_LATENCY_S + hops * hopDt) rest.length)
          now).1,
        (runBatch hopDt sp base
          (List.drop (lagDropCount hopDt now (base + MOVEMENT_LATENCY_S + hops * hopDt) rest.length)
            (r :: rest))
          (hops + lagDropCount hopDt now (base + MOVEMENT_LATENCY_S + hops * hopDt) rest.length)
          now).2.1,
        BEv.dropped (lagDropCount hopDt now (base + MOVEMENT_LATENCY_S + hops * hopDt) rest.length) ::
        (runBatch hopDt sp base
          (List.drop (lagDropCount hopDt now (base + MOVEMENT_LATENCY_S + hops * hopDt) rest.length)
            (r :: rest))
          (hops + lagDropCount hopDt now (base + MOVEMENT_LATENCY_S + hops * hopDt) rest.length)
          now).2.2) := by
  rw [runBatch.eq_def]
  dsimp only
  rw [dif_pos h]

theorem runBatch_cons_step (hopDt : ℚ) (sp : Bool) (base : ℚ) (r : Rec) (rest : List Rec)
    (hops : Nat) (now : ℚ)
    (h : ¬ (hopDt ≤ now - (base + MOVEMENT_LATENCY_S + hops * hopDt) ∧
      0 < lagDropCount hopDt now (base + MOVEMENT_LATENCY_S + hops * hopDt) rest.length)) :
    runBatch hopDt sp base (r :: rest) hops now =
      ((runBatch hopDt sp base rest (hops + 1)
          (max now (base + MOVEMENT_LATENCY_S + hops * hopDt))).1,
        (runBatch hopDt sp base rest (hops + 1)
          (max now (base + MOVEMENT_LATENCY_S + hops * hopDt))).2.1,
        (if sp then
          (if significant r then BEv.applied (toOffsets r) else BEv.skippedDeadband)
        else BEv.skippedNotSpeaking) ::
        (runBatch hopDt sp base rest (hops + 1)
          (max now (base + MOVEMENT_LATENCY_S + hops * hopDt))).2.2) := by
  rw [runBatch.eq_def]
  dsimp only
  rw [dif_neg h]
  cases sp with
  | false => rfl
  | true => cases hsig : significant r <;> simp [hsig]

/-- `hops_done` advances by exactly the number of records of the batch,
whether hops are applied, skipped or dropped. -/
theorem runBatch_fst (hopDt : ℚ) (sp : Bool) (base : ℚ) :
    ∀ (n : Nat) (l : List Rec), l.length ≤ n → ∀ (hops : Nat) (now : ℚ),
      (runBatch hopDt sp base l hops now).1 = hops + l.length := by
  intro n
  induction n with
  | zero =>
    intro l hl hops now
    have hnil : l = [] := List.eq_nil_of_length_eq_zero (Nat.le_zero.mp hl)
    subst hnil
    simp [runBatch_nil]
  | succ n ih =>
    intro l hl hops now
    match l with
    | [] => simp [runBatch_nil]
    | r :: rest =>
      by_cases h : hopDt ≤ now - (base + MOVEMENT_LATENCY_S + hops * hopDt) ∧
          0 < lagDropCount hopDt now (base + MOVEMENT_LATENCY_S + hops * hopDt) rest.length
      · rw [runBatch_cons_lag hopDt sp base r rest hops now h]
        have hd1 : 0 < lagDropCount hopDt now (base + MOVEMENT_LATENCY_S + hops * hopDt)
            rest.length := h.2
        have hd2 : lagDropCount hopDt now (base + MOVEMENT_LATENCY_S + hops * hopDt)
            rest.length ≤ rest.length := min_le_right _ _
        have hlen : (List.drop (lagDropCount hopDt now (base + MOVEMENT_LATENCY_S + hops * hopDt)
            rest.length) (r :: rest)).length ≤ n := by
          simp only [List.length_drop, List.length_cons]
          simp only [List.length_cons] at hl
          omega
        rw [ih _ hlen]
        simp only [List.length_drop, List.length_cons]
        omega
      · rw [runBatch_cons_step hopDt sp base r rest hops now h]
        have hlen : rest.length ≤ n := by
          simp only [List.length_cons] at hl; omega
        rw [ih _ hlen]
        simp only [List.length_cons]
        omega

/-- With `robot_speaking = false`, no record of the batch is ever passed
to `_apply_offsets`. -/
theorem runBatch_not_speaking_no_applied (hopDt : ℚ) (base : ℚ) :
    ∀ (n : Nat) (l : List Rec), l.length ≤ n → ∀ (hops : Nat) (now : ℚ)
      (o : ℚ × ℚ × ℚ × ℚ × ℚ × ℚ),
      BEv.applied o ∉ (runBatch hopDt false base l hops now).2.2 := by
  intro n
  induction n with
  | zero =>
    intro l hl hops now o
    have hnil : l = [] := List.eq_nil_of_length_eq_zero (Nat.le_zero.mp hl)
    subst hnil
    simp [runBatch_nil]
  | succ n ih =>
    intro l hl hops now o
    match l with
    | [] => simp [runBatch_nil]
    | r :: rest =>
      by_cases h : hopDt ≤ now - (base + MOVEMENT_LATENCY_S + hops * hopDt) ∧
          0 < lagDropCount hopDt now (base + MOVEMENT_LATENCY_S + hops * hopDt) rest.length
      · rw [runBatch_cons_lag hopDt false base r rest hops now h]
        have hlen : (List.drop (lagDropCount hopDt now (base + MOVEMENT_LATENCY_S + hops * hopDt)
            rest.length) (r :: rest)).length ≤ n := by
          have hd1 : 0 < lagDropCount hopDt now (base + MOVEMENT_LATENCY_S + hops * hopDt)
              rest.length := h.2
          simp only [List.length_drop, List.length_cons]
          simp only [List.length_cons] at hl
          omega
        simpa using ih _ hlen (hops + lagDropCount hopDt now
          (base + MOVEMENT_LATENCY_S + hops * hopDt) rest.length) now o
      · rw [runBatch_cons_step hopDt false base r rest hops now h]
        have hlen : rest.length ≤ n := by
          simp only [List.length_cons] at hl; omega
        simpa using ih _ hlen (hops + 1) (max now (base + MOVEMENT_LATENCY_S + hops * hopDt)) o

/-- The last event of a non-empty batch is never a lag drop: lag handling
always preserves the final record of the batch for actual processing. -/
theorem runBatch_last_not_dropped (hopDt : ℚ) (sp : Bool) (base : ℚ) :
    ∀ (n : Nat) (l : List Rec), l.length ≤ n → l ≠ [] → ∀ (hops : Nat) (now : ℚ),
      ∃ init e, (runBatch hopDt sp base l hops now).2.2 = init ++ [e] ∧
        ∀ k, e ≠ BEv.dropped k := by
  intro n
  induction n with
  | zero =>
    intro l hl hne
    exact absurd (List.eq_nil_of_length_eq_zero (Nat.le_zero.mp hl)) hne
  | succ n ih =>
    intro l hl hne hops now
    match l with
    | r :: rest =>
      by_cases h : hopDt ≤ now - (base + MOVEMENT_LATENCY_S + hops * hopDt) ∧
          0 < lagDropCount hopDt now (base + MOVEMENT_LATENCY_S + hops * hopDt) rest.length
      · rw [runBatch_cons_lag hopDt sp base r rest hops now h]
        have hd1 : 0 < lagDropCount hopDt now (base + MOVEMENT_LATENCY_S + hops * hopDt)
            rest.length := h.2
        have hd2 : lagDropCount hopDt now (base + MOVEMENT_LATENCY_S + hops * hopDt)
            rest.length ≤ rest.length := min_le_right _ _
        have hlen : (List.drop (lagDropCount hopDt now (base + MOVEMENT_LATENCY_S + hops * hopDt)
            rest.length) (r :: rest)).length ≤ n := by
          simp only [List.length_drop, List.length_cons]
          simp only [List.length_cons] at hl
          omega
        have hne' : List.drop (lagDropCount hopDt now (base + MOVEMENT_LATENCY_S + hops * hopDt)
            rest.length) (r :: rest) ≠ [] := by
          intro habs
          have := congrArg List.length habs
          simp only [List.length_drop, List.length_cons, List.length_nil] at this
          omega
        obtain ⟨init, e, heq, hnd⟩ := ih _ hlen hne' (hops + lagDropCount hopDt now
          (base + MOVEMENT_LATENCY_S + hops * hopDt) rest.length) now
        exact ⟨BEv.dropped (lagDropCount hopDt now (base + MOVEMENT_LATENCY_S + hops * hopDt)
          rest.length) :: init, e, by simp [heq], hnd⟩
      · rw [runBatch_cons_step hopDt sp base r rest hops now h]
        match rest with
        | [] =>
          refine ⟨[], (if sp = true then (if significant r = true then BEv.applied (toOffsets r)
            else BEv.skippedDeadband) else BEv.skippedNotSpeaking), by simp [runBatch_nil], ?_⟩
          intro k
          cases sp <;> simp
          cases significant r <;> simp
        | r' :: rest' =>
          have hlen : (r' :: rest').length ≤ n := by
            simp only [List.length_cons] at hl ⊢; omega
          obtain ⟨init, e, heq, hnd⟩ := ih _ hlen (by simp) (hops + 1)
            (max now (base + MOVEMENT_LATENCY_S + hops * hopDt))
          exact ⟨(if sp = true then (if significant r = true then BEv.applied (toOffsets r)
            else BEv.skippedDeadband) else BEv.skippedNotSpeaking) :: init, e,
            by simp [heq], hnd⟩

/-- A batch of exactly one record is never lag-dropped (the cap
`len(results) - i - 1` is zero): with `robot_speaking = true` it is either
applied or deadband-skipped after waiting for its target instant. -/
theorem runBatch_singleton (hopDt : ℚ) (base : ℚ) (r : Rec) (hops : Nat) (now : ℚ) :
    runBatch hopDt true base [r] hops now =
      (hops + 1, max now (base + MOVEMENT_LATENCY_S + hops * hopDt),
        [if significant r = true then BEv.applied (toOffsets r) else BEv.skippedDeadband]) := by
  rw [runBatch_cons_step hopDt true base r [] hops now (by simp [lagDropCount])]
  cases hsig : significant r <;> simp [runBatch_nil, hsig]

theorem drop_length_pred_getLast : ∀ (l : List Rec) (h : l ≠ []),
    List.drop (l.length - 1) l = [l.getLast h]
  | [r], _ => rfl
  | r :: r' :: rest, _ => by
    have ih := drop_length_pred_getLast (r' :: rest) (by simp)
    simpa [List.getLast] using ih

/-- C2 (lag recovery): for a batch of `N ≥ 1` records whose deadlines
`0..N-2` are all at least one hop in the past, the dispatch loop drops
records `0..N-2` in one lag-handling step (advancing `hops_done` by
`N - 1` with no actuator call) and dispatches exactly the final record;
moreover, in general, `hops_done` advances by exactly the batch size and
the final record of a batch is never dropped by lag handling. -/
theorem lag_recovery (hopDt : ℚ) (base : ℚ) (l : List Rec) (hops : Nat) (now : ℚ)
    (hpos : 0 < hopDt) (hne : l ≠ [])
    (hlag : base + MOVEMENT_LATENCY_S + (hops + (l.length - 1) : Nat) * hopDt ≤ now)
    (hsig : significant (l.getLast hne) = true) :
    runBatch hopDt true base l hops now =
      (hops + l.length, now,
        if l.length = 1 then [BEv.applied (toOffsets (l.getLast hne))]
        else [BEv.dropped (l.length - 1), BEv.applied (toOffsets (l.getLast hne))]) ∧
    (∀ (sp : Bool) (b : ℚ) (l' : List Rec) (h' : Nat) (n' : ℚ),
      (runBatch hopDt sp b l' h' n').1 = h' + l'.length) ∧
    (∀ (sp : Bool) (b : ℚ) (l' : List Rec), l' ≠ [] → ∀ (h' : Nat) (n' : ℚ),
      ∃ init e, (runBatch hopDt sp b l' h' n').2.2 = init ++ [e] ∧
        ∀ k, e ≠ BEv.dropped k) := by
  refine ⟨?_, fun sp b l' h' n' => runBatch_fst hopDt sp b l'.length l' le_rfl h' n',
    fun sp b l' hne' h' n' => runBatch_last_not_dropped hopDt sp b l'.length l' le_rfl hne' h' n'⟩
  match l, hne with
  | [r], hx =>
    rw [runBatch_singleton]
    have htarget : base + MOVEMENT_LATENCY_S + (hops : ℚ) * hopDt ≤ now := by
      have : ((hops + (([r] : List Rec).length - 1) : Nat) : ℚ) = (hops : ℚ) := by
        simp
      rw [this] at hlag
      exact hlag
    rw [max_eq_left htarget]
    simp only [show ([r].getLast hx) = r from rfl] at hsig
    simp [hsig]
  | r :: r' :: rest, _ =>
    set L := (r' :: rest).length with hL
    have hL1 : 1 ≤ L := by simp [hL]
    have hlen : (r :: r' :: rest).length - 1 = L := by simp [hL]
    have hcast : ((hops + ((r :: r' :: rest).length - 1) : Nat) : ℚ)
        = (hops : ℚ) + (L : ℚ) := by
      rw [hlen]; push_cast; ring
    rw [hcast] at hlag
    -- the first iteration is at least L whole hops behind its target
    have hgap : (L : ℚ) * hopDt ≤ now - (base + MOVEMENT_LATENCY_S + hops * hopDt) := by
      nlinarith [hlag]
    have hle : hopDt ≤ now - (base + MOVEMENT_LATENCY_S + hops * hopDt) := by
      have h1 : (1 : ℚ) ≤ (L : ℚ) := by exact_mod_cast hL1
      nlinarith
    have hfloor : (L : ℤ) ≤ ((now - (base + MOVEMENT_LATENCY_S + hops * hopDt)) / hopDt).floor := by
      rw [Rat.le_floor]
      push_cast
      rw [le_div_iff₀ hpos]
      linarith [hgap]
    have hdc : lagDropCount hopDt now (base + MOVEMENT_LATENCY_S + hops * hopDt) L = L := by
      have htn : L ≤ ((now - (base + MOVEMENT_LATENCY_S + hops * hopDt)) / hopDt).floor.toNat := by
        omega
      exact min_eq_right htn
    have hcond : hopDt ≤ now - (base + MOVEMENT_LATENCY_S + hops * hopDt) ∧
        0 < lagDropCount hopDt now (base + MOVEMENT_LATENCY_S + hops * hopDt)
          (r' :: rest).length := by
      refine ⟨hle, ?_⟩
      rw [← hL, hdc]
      omega
    rw [runBatch_cons_lag hopDt true base r (r' :: rest) hops now hcond]
    rw [← hL, hdc]
    have hdrop : List.drop L (r :: r' :: rest) = [(r :: r' :: rest).getLast (by simp)] := by
      rw [← hlen]
      exact drop_length_pred_getLast (r :: r' :: rest) (by simp)
    rw [hdrop, runBatch_singleton]
    have htarget' : base + MOVEMENT_LATENCY_S + ((hops + L : Nat) : ℚ) * hopDt ≤ now := by
      push_cast
      linarith [hlag]
    rw [max_eq_left htarget']
    have hone : ¬ ((r :: r' :: rest).length = 1) := by simp
    simp only [hsig, if_true, hone, if_false]
    simp only [List.length_cons] at hL ⊢
    congr 1

/-- A record with every rotational component above the deadband. -/
def recLoud : Rec := ⟨0, 0, 0, 1, 0, 0⟩

/-- A record with every rotational component inside the deadband. -/
def recQuiet : Rec := ⟨5, 5, 5, 0, 0, 0⟩

/-- C5 (suppression and deadband): with `robot_speaking = false` no record
of a batch reaches `_apply_offsets` yet `hops_done` advances by the batch
size; a single record below the deadband is skipped (no actuator call)
while `hops_done` still advances; a significant record is applied; and
running a further batch after a suppressed one continues `hops_done` from
where it was (toggling `speaking` back on resumes actuation without
resetting the hop counter). -/
theorem suppression_and_deadband (hopDt base : ℚ) :
    (∀ (l : List Rec) (hops : Nat) (now : ℚ) (o : ℚ × ℚ × ℚ × ℚ × ℚ × ℚ),
        BEv.applied o ∉ (runBatch hopDt false base l hops now).2.2 ∧
        (runBatch hopDt false base l hops now).1 = hops + l.length) ∧
    (∀ (r : Rec) (hops : Nat) (now : ℚ), significant r = false →
        runBatch hopDt true base [r] hops now =
          (hops + 1, max now (base + MOVEMENT_LATENCY_S + hops * hopDt),
            [BEv.skippedDeadband])) ∧
    (∀ (r : Rec) (hops : Nat) (now : ℚ), significant r = true →
        runBatch hopDt true base [r] hops now =
          (hops + 1, max now (base + MOVEMENT_LATENCY_S + hops * hopDt),
            [BEv.applied (toOffsets r)])) ∧
    (∀ (l : List Rec) (r : Rec) (hops : Nat) (now now' : ℚ), significant r = true →
        runBatch hopDt true base [r] (runBatch hopDt false base l hops now).1 now' =
          (hops + l.length + 1,
            max now' (base + MOVEMENT_LATENCY_S + ((hops + l.length : Nat) : ℚ) * hopDt),
            [BEv.applied (toOffsets r)])) := by
  refine ⟨fun l hops now o =>
      ⟨runBatch_not_speaking_no_applied hopDt base l.length l le_rfl hops now o,
       runBatch_fst hopDt false base l.length l le_rfl hops now⟩,
    fun r hops now hsig => ?_, fun r hops now hsig => ?_,
    fun l r hops now now' hsig => ?_⟩
  · rw [runBatch_singleton, hsig]
    simp
  · rw [runBatch_singleton, hsig]
    simp
  · rw [runBatch_fst hopDt false base l.length l le_rfl hops now]
    rw [runBatch_singleton, hsig]
    simp

/-- Witness for `suppression_and_deadband` at concrete inputs: a quiet
record is deadband-skipped, a loud one is applied. -/
theorem suppression_and_deadband_witness :
    runBatch 1 true 0 [recQuiet] 0 0 =
      (1, max 0 (0 + MOVEMENT_LATENCY_S + (0 : ℚ) * 1), [BEv.skippedDeadband]) := by
  have h := (suppression_and_deadband 1 0).2.1 recQuiet 0 0 (by norm_num [significant, recQuiet])
  simpa using h

/-- Witness for `lag_recovery`: three records, a clock two whole hops past
the first deadline: records 0 and 1 are dropped, record 2 is applied. -/
theorem lag_recovery_witness :
    runBatch 1 true 0 [recQuiet, recQuiet, recLoud] 0 3 =
      (3, 3, [BEv.dropped 2, BEv.applied (toOffsets recLoud)]) := by
  have h := (lag_recovery 1 0 [recQuiet, recQuiet, recLoud] 0 3 (by norm_num)
    (by simp) (by norm_num [MOVEMENT_LATENCY_S])
    (by norm_num [significant, recLoud, List.getLast])).1
  simpa [List.getLast] using h

/-- Head poses are opaque values owned by the actuator. -/
abbrev Pose := Nat

/-- Capability flags of the injected `reachy_mini` object, probed with
`hasattr` by the Python code: `hasReachy` is `self._reachy is not None`,
the others are `hasattr(self._reachy, "get_current_head_pose")`,
`"goto_head_pose"`, `"set_head_pose"`. -/
structure Caps where
  hasReachy : Bool
  hasGetPose : Bool
  hasGoto : Bool
  hasSetPose : Bool
deriving DecidableEq, Repr

/-- Commands issued to the actuator. -/
inductive Act where
  /-- `goto_head_pose(pose, duration)` -/
  | gotoPose (p : Pose) (duration : ℚ)
  /-- `set_head_pose(pose)` -/
  | setPose (p : Pose)
  /-- an offset application by `_apply_offsets` -/
  | offsets (o : ℚ × ℚ × ℚ × ℚ × ℚ × ℚ)
deriving DecidableEq, Repr

/-- The mutable state of a `HeadWobbler` instance (fields set in
`__init__`, lines 41-62): `generation`, `base_ts`, `hops_done`,
`robot_speaking`, the ingest queue, the envelope-engine state (abstract,
see the header comment), the stop event and the captured base pose. -/
structure WState where
  generation : Nat
  base_ts : Option ℚ
  hops_done : Nat
  robot_speaking : Bool
  audio_queue : List Chunk
  swayState : Nat
  stopEvent : Bool
  base_head_pose : Option Pose
deriving DecidableEq, Repr

namespace HeadWobbler

/-- `HeadWobbler.feed` (lines 64-72).  Decoding
`np.frombuffer(base64.b64decode(...))` is external; its outcome is the
`decoded` argument (`Except.error` models the raised exception, caught by
the handler at line 71, which logs and drops the chunk).  On success the
chunk is stamped with the current generation (read under the state lock)
and appended to the queue. -/
def feed (decoded : Except Unit (List Int)) (s : WState) : WState :=
  match decoded with
  | .error _ => s
  | .ok buf => { s with audio_queue := s.audio_queue ++ [⟨s.generation, buf⟩] }

/-- `HeadWobbler.set_robot_speaking` (lines 92-106): updates the flag
under the state lock (and prints when the value changes). -/
def set_robot_speaking (speaking : Bool) (s : WState) : WState :=
  { s with robot_speaking := speaking }

/-- The drain loop of `reset` (lines 426-433): `get_nowait` until
`queue.Empty`. -/
def drainQueue : List Chunk → List Chunk
  | [] => []
  | _ :: t => drainQueue t

/-- `HeadWobbler._reset_to_base_pose` (lines 130-144): no-op without an
actuator or without a captured base pose; otherwise `goto_head_pose(pose,
duration=0.5)` when available, else `set_head_pose(pose)`, else nothing
(exceptions are caught and logged). -/
def reset_to_base_pose (caps : Caps) (basePose : Option Pose) : List Act :=
  if caps.hasReachy = false then []
  else
    match basePose with
    | none => []
    | some p =>
      if caps.hasGoto then [.gotoPose p (1 / 2)]
      else if caps.hasSetPose then [.setPose p]
      else []

/-- `HeadWobbler.reset` (lines 415-443): under the state lock increment
`generation`, clear `base_ts`, zero `hops_done`, clear `robot_speaking`;
then drain the queue, reset the envelope engine, and command the actuator
back to the base pose. -/
def reset (caps : Caps) (s : WState) : WState × List Act :=
  ({ s with
      generation := s.generation + 1
      base_ts := none
      hops_done := 0
      robot_speaking := false
      audio_queue := drainQueue s.audio_queue
      swayState := 0 },
    reset_to_base_pose caps s.base_head_pose)

/-- `HeadWobbler.stop` (lines 83-90): set the stop event, join the
dispatch thread, restore the base pose. -/
def stop (caps : Caps) (s : WState) : WState × List Act :=
  ({ s with stopEvent := true }, reset_to_base_pose caps s.base_head_pose)

/-- `HeadWobbler._capture_base_pose` (lines 108-128): `readPose = none`
models `get_current_head_pose` raising (the handler leaves the stored
pose unchanged); without the getter the stored pose is explicitly set to
`None` (lines 120-123). -/
def capture_base_pose (caps : Caps) (readPose : Option Pose) (s : WState) : WState :=
  if caps.hasReachy = false then s
  else if caps.hasGetPose then
    match readPose with
    | some p => { s with base_head_pose := some p }
    | none => s
  else { s with base_head_pose := none }

/-- `HeadWobbler.start` (lines 74-81): clear the stop event, capture the
base pose, spawn the dispatch thread. -/
def start (caps : Caps) (readPose : Option Pose) (s : WState) : WState :=
  capture_base_pose caps readPose { s with stopEvent := false }

end HeadWobbler

theorem drainQueue_eq_nil : ∀ l : List Chunk, HeadWobbler.drainQueue l = []
  | [] => rfl
  | _ :: t => drainQueue_eq_nil t

theorem reset_to_base_pose_no_offsets (caps : Caps) (bp : Option Pose)
    (o : ℚ × ℚ × ℚ × ℚ × ℚ × ℚ) :
    Act.offsets o ∉ HeadWobbler.reset_to_base_pose caps bp := by
  rcases caps with ⟨hr, hg, hgoto, hset⟩
  cases hr <;> cases bp <;> cases hgoto <;> cases hset <;>
    simp [HeadWobbler.reset_to_base_pose]

/-- `capture_base_pose` touches only the stored base pose. -/
theorem capture_base_pose_frame (caps : Caps) (rp : Option Pose) (s : WState) :
    (HeadWobbler.capture_base_pose caps rp s).generation = s.generation ∧
    (HeadWobbler.capture_base_pose caps rp s).base_ts = s.base_ts ∧
    (HeadWobbler.capture_base_pose caps rp s).hops_done = s.hops_done ∧
    (HeadWobbler.capture_base_pose caps rp s).robot_speaking = s.robot_speaking ∧
    (HeadWobbler.capture_base_pose caps rp s).audio_queue = s.audio_queue ∧
    (HeadWobbler.capture_base_pose caps rp s).swayState = s.swayState ∧
    (HeadWobbler.capture_base_pose caps rp s).stopEvent = s.stopEvent := by
  rcases caps with ⟨hr, hg, hgoto, hset⟩
  cases hr <;> cases hg <;> cases rp <;> simp [HeadWobbler.capture_base_pose]

/-- Demonstration state and full capability set for witnesses. -/
def capsFull : Caps := ⟨true, true, true, true⟩

def wsDemo : WState :=
  { generation := 3, base_ts := some 5, hops_done := 7, robot_speaking := true,
    audio_queue := [⟨3, [1]⟩], swayState := 4, stopEvent := false, base_head_pose := some 9 }

def wsIdle : WState :=
  { generation := 0, base_ts := none, hops_done := 0, robot_speaking := false,
    audio_queue := [], swayState := 0, stopEvent := false, base_head_pose := some 2 }

def wsNoPose : WState :=
  { generation := 0, base_ts := none, hops_done := 0, robot_speaking := false,
    audio_queue := [], swayState := 0, stopEvent := false, base_head_pose := none }

/-- C3 (postcondition of `reset`): the generation is incremented, the
timestamp anchor cleared, the hop counter zeroed, `speaking` cleared, the
ingest queue drained empty, the envelope engine state reset, and — when a
base pose was captured and the actuator supports it — the actuator is
commanded back to the base pose. -/
theorem reset_postcondition (caps : Caps) (s : WState) :
    (HeadWobbler.reset caps s).1.generation = s.generation + 1 ∧
    (HeadWobbler.reset caps s).1.base_ts = none ∧
    (HeadWobbler.reset caps s).1.hops_done = 0 ∧
    (HeadWobbler.reset caps s).1.robot_speaking = false ∧
    (HeadWobbler.reset caps s).1.audio_queue = [] ∧
    (HeadWobbler.reset caps s).1.swayState = 0 ∧
    (∀ p, s.base_head_pose = some p → caps.hasReachy = true → caps.hasGoto = true →
      (HeadWobbler.reset caps s).2 = [Act.gotoPose p (1 / 2)]) := by
  refine ⟨rfl, rfl, rfl, rfl, drainQueue_eq_nil s.audio_queue, rfl, ?_⟩
  intro p hp hr hg
  simp [HeadWobbler.reset, HeadWobbler.reset_to_base_pose, hp, hr, hg]

/-- Witness for `reset_postcondition` on a concrete populated state. -/
theorem reset_postcondition_witness :
    (HeadWobbler.reset capsFull wsDemo).2 = [Act.gotoPose 9 (1 / 2)] :=
  (reset_postcondition capsFull wsDemo).2.2.2.2.2.2 9 rfl rfl rfl

/-- C8 (contract of `feed`): a decoding failure is caught and leaves the
state — queue included — unchanged; a successful decode appends exactly
one chunk stamped with the current generation and changes nothing else. -/
theorem feed_contract (s : WState) (u : Unit) (buf : List Int) :
    HeadWobbler.feed (Except.error u) s = s ∧
    HeadWobbler.feed (Except.ok buf) s =
      { s with audio_queue := s.audio_queue ++ [⟨s.generation, buf⟩] } :=
  ⟨rfl, rfl⟩

/-- C9 (frame effect of `set_robot_speaking`): only the `speaking` flag
changes. -/
theorem set_speaking_frame (b : Bool) (s : WState) :
    (HeadWobbler.set_robot_speaking b s).robot_speaking = b ∧
    (HeadWobbler.set_robot_speaking b s).generation = s.generation ∧
    (HeadWobbler.set_robot_speaking b s).base_ts = s.base_ts ∧
    (HeadWobbler.set_robot_speaking b s).hops_done = s.hops_done ∧
    (HeadWobbler.set_robot_speaking b s).audio_queue = s.audio_queue ∧
    (HeadWobbler.set_robot_speaking b s).swayState = s.swayState ∧
    (HeadWobbler.set_robot_speaking b s).stopEvent = s.stopEvent ∧
    (HeadWobbler.set_robot_speaking b s).base_head_pose = s.base_head_pose :=
  ⟨rfl, rfl, rfl, rfl, rfl, rfl, rfl, rfl⟩

/-- C10 (`stop` does not rewind timing state): `stop` leaves `generation`,
`base_ts`, `hops_done` and `speaking` untouched, and a subsequent `start`
also leaves them untouched, so the old schedule anchor and hop count are
reused. -/
theorem stop_start_keep_timing (caps : Caps) (rp : Option Pose) (s : WState) :
    ((HeadWobbler.stop caps s).1.generation = s.generation ∧
     (HeadWobbler.stop caps s).1.base_ts = s.base_ts ∧
     (HeadWobbler.stop caps s).1.hops_done = s.hops_done ∧
     (HeadWobbler.stop caps s).1.robot_speaking = s.robot_speaking) ∧
    ((HeadWobbler.start caps rp (HeadWobbler.stop caps s).1).generation = s.generation ∧
     (HeadWobbler.start caps rp (HeadWobbler.stop caps s).1).base_ts = s.base_ts ∧
     (HeadWobbler.start caps rp (HeadWobbler.stop caps s).1).hops_done = s.hops_done ∧
     (HeadWobbler.start caps rp (HeadWobbler.stop caps s).1).robot_speaking
        = s.robot_speaking) := by
  have hframe := capture_base_pose_frame caps rp
    { (HeadWobbler.stop caps s).1 with stopEvent := false }
  exact ⟨⟨rfl, rfl, rfl, rfl⟩,
    ⟨hframe.1, hframe.2.1, hframe.2.2.1, hframe.2.2.2.1⟩⟩

/-- Counterexample to C6 as stated: with a captured base pose, a second
`stop` and a `reset` with an empty queue each re-issue the base-pose
restore command, which is an actuator call. -/
theorem stop_twice_reset_cex :
    (HeadWobbler.stop capsFull (HeadWobbler.stop capsFull wsIdle).1).2
        = [Act.gotoPose 2 (1 / 2)] ∧
    (HeadWobbler.stop capsFull (HeadWobbler.stop capsFull wsIdle).1).2 ≠ [] ∧
    wsIdle.audio_queue = [] ∧
    (HeadWobbler.reset capsFull wsIdle).2 = [Act.gotoPose 2 (1 / 2)] ∧
    (HeadWobbler.reset capsFull wsIdle).2 ≠ [] := by
  refine ⟨?_, ?_, rfl, ?_, ?_⟩ <;>
    simp [HeadWobbler.stop, HeadWobbler.reset, HeadWobbler.reset_to_base_pose,
      capsFull, wsIdle]

/-- C6 amended: a second `stop`, and a `reset` with no pending audio,
raise no error and issue no offset-application command; the only actuator
call either can make is the base-pose restore, and with no captured base
pose there are zero actuator calls. -/
theorem stop_reset_idempotent (caps : Caps) (s : WState) :
    (∀ o, Act.offsets o ∉ (HeadWobbler.stop caps (HeadWobbler.stop caps s).1).2) ∧
    (HeadWobbler.stop caps (HeadWobbler.stop caps s).1).1 = { s with stopEvent := true } ∧
    (s.base_head_pose = none →
      (HeadWobbler.stop caps (HeadWobbler.stop caps s).1).2 = []) ∧
    (∀ o, Act.offsets o ∉ (HeadWobbler.reset caps s).2) ∧
    (s.base_head_pose = none → (HeadWobbler.reset caps s).2 = []) := by
  refine ⟨fun o => reset_to_base_pose_no_offsets _ _ o, rfl, fun h => ?_,
    fun o => reset_to_base_pose_no_offsets _ _ o, fun h => ?_⟩ <;>
  · rcases caps with ⟨hr, _, _, _⟩
    cases hr <;>
      simp [HeadWobbler.stop, HeadWobbler.reset, HeadWobbler.reset_to_base_pose, h]

/-- Witness for `stop_reset_idempotent` at a state with no captured base
pose: truly zero actuator calls. -/
theorem stop_reset_idempotent_witness :
    (HeadWobbler.reset capsFull wsNoPose).2 = [] :=
  (stop_reset_idempotent capsFull wsNoPose).2.2.2.2 rfl

/-- Program counter of the dispatch thread inside `working_loop`
(lines 307-413).  Code outside the lock regions is represented by the
intermediate points; each `Step` rule below is one lock region (or one
external call), so concurrent `reset`/`feed`/`set_robot_speaking`/`stop`
can interleave exactly where the Python code releases the state lock. -/
inductive PC where
  /-- head of the `while` loop, about to `get_nowait` (line 313). -/
  | top
  /-- popped a chunk, about to read the generation under lock (line 326). -/
  | gotChunk (c : Chunk)
  /-- generation check passed (line 328), `curGen` is the value read. -/
  | freshChunk (curGen : Nat) (c : Chunk)
  /-- `base_ts` ensured (lines 331-334), about to call `sway.feed`. -/
  | engineReady (curGen : Nat) (c : Chunk)
  /-- inner loop head at line 343 with the remaining records. -/
  | batch (curGen : Nat) (rem : List Rec)
  /-- snapshot taken under lock (lines 344-355): `bs`/`hd` are the values
  of `base_ts`/`hops_done` read there; about to do lag/wait handling. -/
  | gated (curGen : Nat) (r : Rec) (rest : List Rec) (bs : ℚ) (hd : Nat)
  /-- passed the final generation+speaking check (lines 386-390); the
  state lock is released, `_apply_offsets` has not yet been called. -/
  | armed (curGen : Nat) (r : Rec) (rest : List Rec)
  /-- `working_loop` returned normally (stop event observed, line 313). -/
  | exited
  /-- an exception escaped the `try`/`finally` (no `except` clause,
  lines 325-412) and killed the thread. -/
  | crashed
deriving DecidableEq, Repr

/-- A configuration: the shared `HeadWobbler` state, the monotonic clock,
and the dispatch thread's program counter. -/
structure Cfg where
  st : WState
  now : ℚ
  pc : PC
deriving DecidableEq, Repr

/-- Events observable from outside: offset applications (tagged with the
generation of the batch being dispatched) and the return of `reset`. -/
inductive Ev where
  | applied (gen : Nat) (o : ℚ × ℚ × ℚ × ℚ × ℚ × ℚ)
  | resetDone (newGen : Nat)
deriving DecidableEq, Repr

/-- One interleaved step of the system.  Parameters: the engine hop
length `hopDt`, the actuator capabilities, and the envelope engine
`efeed state chunk = some (state', records)` or `none` when the engine
raises.  Dispatch-thread rules follow `working_loop` lock region by lock
region; the remaining rules are the entry points callable from other
threads, plus `tick`, which lets the monotonic clock advance (this also
models the dispatch thread sleeping at lines 322 and 371). -/
inductive Step (hopDt : ℚ) (caps : Caps) (efeed : Nat → Chunk → Option (Nat × List Rec)) :
    Cfg → Option Ev → Cfg → Prop where
  /-- queue empty: sleep and retry (lines 320-323). -/
  | popEmpty (c : Cfg) :
      c.pc = .top → c.st.stopEvent = false → c.st.audio_queue = [] →
      Step hopDt caps efeed c none c
  /-- `get_nowait` succeeds (line 316). -/
  | popChunk (c : Cfg) (ch : Chunk) (q : List Chunk) :
      c.pc = .top → c.st.stopEvent = false → c.st.audio_queue = ch :: q →
      Step hopDt caps efeed c none
        { c with st := { c.st with audio_queue := q }, pc := .gotChunk ch }
  /-- the `while` condition fails (line 313). -/
  | stopExit (c : Cfg) :
      c.pc = .top → c.st.stopEvent = true →
      Step hopDt caps efeed c none { c with pc := .exited }
  /-- stale chunk discarded (lines 326-329). -/
  | staleChunk (c : Cfg) (ch : Chunk) :
      c.pc = .gotChunk ch → ch.gen ≠ c.st.generation →
      Step hopDt caps efeed c none { c with pc := .top }
  /-- chunk is current; `current_generation` is recorded (lines 326-328). -/
  | freshGen (c : Cfg) (ch : Chunk) :
      c.pc = .gotChunk ch → ch.gen = c.st.generation →
      Step hopDt caps efeed c none { c with pc := .freshChunk c.st.generation ch }
  /-- anchor `base_ts` if unset (lines 331-334). -/
  | ensureBase (c : Cfg) (g : Nat) (ch : Chunk) :
      c.pc = .freshChunk g ch →
      Step hopDt caps efeed c none
        { c with
            st := { c.st with base_ts := some (c.st.base_ts.getD c.now) }
            pc := .engineReady g ch }
  /-- `sway.feed` under the sway lock returns a batch (lines 337-338). -/
  | engineFeedOk (c : Cfg) (g : Nat) (ch : Chunk) (e' : Nat) (results : List Rec) :
      c.pc = .engineReady g ch → efeed c.st.swayState ch = some (e', results) →
      Step hopDt caps efeed c none
        { c with st := { c.st with swayState := e' }, pc := .batch g results }
  /-- `sway.feed` raises: nothing catches it, the thread dies. -/
  | engineFeedErr (c : Cfg) (g : Nat) (ch : Chunk) :
      c.pc = .engineReady g ch → efeed c.st.swayState ch = none →
      Step hopDt caps efeed c none { c with pc := .crashed }
  /-- batch exhausted, `task_done`, back to the outer loop (line 343). -/
  | batchDone (c : Cfg) (g : Nat) :
      c.pc = .batch g [] →
      Step hopDt caps efeed c none { c with pc := .top }
  /-- the generation changed: abandon the batch (lines 344-346). -/
  | innerAbort (c : Cfg) (g : Nat) (r : Rec) (rest : List Rec) :
      c.pc = .batch g (r :: rest) → c.st.generation ≠ g →
      Step hopDt caps efeed c none { c with pc := .top }
  /-- generation unchanged: snapshot `base_ts`/`hops_done` under the lock,
  applying the `None` fallback of lines 350-355. -/
  | innerSnapshot (c : Cfg) (g : Nat) (r : Rec) (rest : List Rec) :
      c.pc = .batch g (r :: rest) → c.st.generation = g →
      Step hopDt caps efeed c none
        { c with
            st := { c.st with base_ts := some (c.st.base_ts.getD c.now) }
            pc := .gated g r rest (c.st.base_ts.getD c.now) c.st.hops_done }
  /-- lag handling (lines 360-368): behind by at least one whole hop and
  at least one record may be dropped; `hops_done` advances by the drop
  count with no actuator call and the loop continues. -/
  | lagDrop (c : Cfg) (g : Nat) (r : Rec) (rest : List Rec) (bs : ℚ) (hd : Nat) :
      c.pc = .gated g r rest bs hd →
      hopDt ≤ c.now - (bs + MOVEMENT_LATENCY_S + hd * hopDt) →
      0 < lagDropCount hopDt c.now (bs + MOVEMENT_LATENCY_S + hd * hopDt) rest.length →
      Step hopDt caps efeed c none
        { c with
            st := { c.st with hops_done := c.st.hops_done + lagDropCount hopDt c.now (bs + MOVEMENT_LATENCY_S + hd * hopDt) rest.length }
            pc := .batch g (List.drop (lagDropCount hopDt c.now (bs + MOVEMENT_LATENCY_S + hd * hopDt) rest.length) (r :: rest)) }
  /-- after the wait, the generation changed: abandon (lines 370-374,
  386-388). -/
  | proceedAbort (c : Cfg) (g : Nat) (r : Rec) (rest : List Rec) (bs : ℚ) (hd : Nat) :
      c.pc = .gated g r rest bs hd →
      ¬ (hopDt ≤ c.now - (bs + MOVEMENT_LATENCY_S + hd * hopDt) ∧
        0 < lagDropCount hopDt c.now (bs + MOVEMENT_LATENCY_S + hd * hopDt) rest.length) →
      bs + MOVEMENT_LATENCY_S + hd * hopDt ≤ c.now →
      c.st.generation ≠ g →
      Step hopDt caps efeed c none { c with pc := .top }
  /-- `robot_speaking` is false: skip the hop, advance `hops_done`
  (lines 393-400). -/
  | proceedSkipSpeaking (c : Cfg) (g : Nat) (r : Rec) (rest : List Rec) (bs : ℚ) (hd : Nat) :
      c.pc = .gated g r rest bs hd →
      ¬ (hopDt ≤ c.now - (bs + MOVEMENT_LATENCY_S + hd * hopDt) ∧
        0 < lagDropCount hopDt c.now (bs + MOVEMENT_LATENCY_S + hd * hopDt) rest.length) →
      bs + MOVEMENT_LATENCY_S + hd * hopDt ≤ c.now →
      c.st.generation = g → c.st.robot_speaking = false →
      Step hopDt caps efeed c none
        { c with st := { c.st with hops_done := c.st.hops_done + 1 }, pc := .batch g rest }
  /-- checks passed with `robot_speaking = true` (lines 386-390): the lock
  is released with the apply still pending. -/
  | proceedArm (c : Cfg) (g : Nat) (r : Rec) (rest : List Rec) (bs : ℚ) (hd : Nat) :
      c.pc = .gated g r rest bs hd →
      ¬ (hopDt ≤ c.now - (bs + MOVEMENT_LATENCY_S + hd * hopDt) ∧
        0 < lagDropCount hopDt c.now (bs + MOVEMENT_LATENCY_S + hd * hopDt) rest.length) →
      bs + MOVEMENT_LATENCY_S + hd * hopDt ≤ c.now →
      c.st.generation = g → c.st.robot_speaking = true →
      Step hopDt caps efeed c none { c with pc := .armed g r rest }
  /-- significant record: `_apply_offsets` runs outside the lock
  (lines 403-406), then `hops_done` advances (lines 408-410). -/
  | applyHit (c : Cfg) (g : Nat) (r : Rec) (rest : List Rec) :
      c.pc = .armed g r rest → significant r = true →
      Step hopDt caps efeed c (some (.applied g (toOffsets r)))
        { c with st := { c.st with hops_done := c.st.hops_done + 1 }, pc := .batch g rest }
  /-- deadband: no actuator call, `hops_done` still advances
  (lines 403, 408-410). -/
  | applyMiss (c : Cfg) (g : Nat) (r : Rec) (rest : List Rec) :
      c.pc = .armed g r rest → significant r = false →
      Step hopDt caps efeed c none
        { c with st := { c.st with hops_done := c.st.hops_done + 1 }, pc := .batch g rest }
  /-- `reset()` called from any thread (lines 415-443); the event marks
  its return. -/
  | resetCall (c : Cfg) :
      Step hopDt caps efeed c (some (.resetDone (c.st.generation + 1)))
        { c with st := (HeadWobbler.reset caps c.st).1 }
  /-- `feed()` from a producer thread (lines 64-72).  The generation is
  read under the state lock but the `put` happens outside it, so by
  enqueue time the stamp may be any value not exceeding the current
  generation. -/
  | feedCall (c : Cfg) (g' : Nat) (buf : List Int) :
      g' ≤ c.st.generation →
      Step hopDt caps efeed c none
        { c with st := { c.st with audio_queue := c.st.audio_queue ++ [⟨g', buf⟩] } }
  /-- `set_robot_speaking` from any thread (lines 92-106). -/
  | setSpeakingCall (c : Cfg) (b : Bool) :
      Step hopDt caps efeed c none
        { c with st := { c.st with robot_speaking := b } }
  /-- `stop()` sets the stop event (line 85). -/
  | stopCall (c : Cfg) :
      Step hopDt caps efeed c none
        { c with st := { c.st with stopEvent := true } }
  /-- the monotonic clock advances. -/
  | tick (c : Cfg) (d : ℚ) :
      0 ≤ d →
      Step hopDt caps efeed c none { c with now := c.now + d }

/-- Finite executions, accumulating the emitted events in order. -/
inductive Steps (hopDt : ℚ) (caps : Caps) (efeed : Nat → Chunk → Option (Nat × List Rec)) :
    Cfg → List Ev → Cfg → Prop where
  | refl (c : Cfg) : Steps hopDt caps efeed c [] c
  | head (c c' c'' : Cfg) (e : Option Ev) (evs : List Ev) :
      Step hopDt caps efeed c e c' → Steps hopDt caps efeed c' evs c'' →
      Steps hopDt caps efeed c (e.toList ++ evs) c''

/-- The generation never decreases. -/
theorem step_generation_mono (hopDt : ℚ) (caps : Caps)
    (efeed : Nat → Chunk → Option (Nat × List Rec)) (c : Cfg) (e : Option Ev) (c' : Cfg)
    (h : Step hopDt caps efeed c e c') : c.st.generation ≤ c'.st.generation := by
  cases h <;> simp [HeadWobbler.reset]

/-- C4 (invariant): every step either keeps the generation and does not
decrease `hops_done` (all dispatch-loop updates add a non-negative
count), or is the `reset` critical section, which zeroes `hops_done` in
the same atomic lock region that increments the generation — no other
operation zeroes `hops_done` or changes the generation. -/
theorem hops_generation_invariant (hopDt : ℚ) (caps : Caps)
    (efeed : Nat → Chunk → Option (Nat × List Rec)) (c : Cfg) (e : Option Ev) (c' : Cfg)
    (h : Step hopDt caps efeed c e c') :
    (c'.st.generation = c.st.generation ∧ c.st.hops_done ≤ c'.st.hops_done) ∨
    (e = some (Ev.resetDone (c.st.generation + 1)) ∧
      c'.st.generation = c.st.generation + 1 ∧ c'.st.hops_done = 0) := by
  cases h <;> simp [HeadWobbler.reset]

/-- Is `e` an offset application tagged with a generation strictly below
`T`? -/
def isOldApplied (T : Nat) : Ev → Bool
  | .applied g _ => g < T
  | .resetDone _ => false

/-- Number of offset applications in `evs` tagged with a generation
strictly below `T`. -/
def countOldApplied (T : Nat) (evs : List Ev) : Nat :=
  (evs.filter (isOldApplied T)).length

/-- How many offset applications tagged below `T` the dispatch thread can
still emit before its next generation check: one exactly when it sits
between its final generation check and the `_apply_offsets` call for an
old batch, zero otherwise. -/
def oldPotential (T : Nat) (c : Cfg) : Nat :=
  match c.pc with
  | .armed g _ _ => if g < T then 1 else 0
  | _ => 0

theorem step_oldApplied_bound (hopDt : ℚ) (caps : Caps)
    (efeed : Nat → Chunk → Option (Nat × List Rec)) (T : Nat) (c : Cfg) (e : Option Ev)
    (c' : Cfg) (h : Step hopDt caps efeed c e c') (hT : T ≤ c.st.generation) :
    countOldApplied T e.toList + oldPotential T c' ≤ oldPotential T c := by
  cases h <;>
    simp_all [countOldApplied, isOldApplied, oldPotential, List.filter_cons, List.filter_nil] <;>
    split_ifs <;> simp_all

/-- C1 amended: along any execution, the number of offset applications
tagged with a generation below `T` is bounded by `oldPotential T` of the
starting configuration, provided `T` does not exceed the current
generation.  Instantiated at the configuration in which `reset()` has
just returned (so `T` is the new generation), this bounds the
old-generation offsets that can still reach the actuator by one — the
single hop that had already passed its final generation check (lines
386-390) when `reset` ran — and by zero whenever the dispatch thread is
not in that window; every other old-generation hop is abandoned at the
next generation check. -/
theorem reset_cancellation (hopDt : ℚ) (caps : Caps)
    (efeed : Nat → Chunk → Option (Nat × List Rec)) (T : Nat) (c : Cfg) (evs : List Ev)
    (c' : Cfg) (h : Steps hopDt caps efeed c evs c') (hT : T ≤ c.st.generation) :
    countOldApplied T evs ≤ oldPotential T c := by
  revert hT
  induction h with
  | refl c0 =>
    intro hT
    simp [countOldApplied]
  | head c0 c1 c2 e evs hstep hsteps ih =>
    intro hT
    have hT1 : T ≤ c1.st.generation :=
      le_trans hT (step_generation_mono hopDt caps efeed c0 e c1 hstep)
    have hb := step_oldApplied_bound hopDt caps efeed T c0 e c1 hstep hT
    have hc := ih hT1
    have hsplit : countOldApplied T (e.toList ++ evs)
        = countOldApplied T e.toList + countOldApplied T evs := by
      simp [countOldApplied, List.filter_append]
    omega

/-- Envelope engine for the counterexample traces: every chunk yields one
significant record and the state is unchanged. -/
def efeedLoud : Nat → Chunk → Option (Nat × List Rec) := fun e _ => some (e, [recLoud])

/-- Envelope engine whose `feed` raises on every chunk. -/
def efeedFail : Nat → Chunk → Option (Nat × List Rec) := fun _ _ => none

def chunk0 : Chunk := ⟨0, []⟩

/-- Initial configuration: dispatch thread at the loop head, one queued
chunk of generation 0, speaking enabled, pristine timing state. -/
def cfgStart : Cfg where
  st := { generation := 0, base_ts := none, hops_done := 0, robot_speaking := true,
          audio_queue := [chunk0], swayState := 0, stopEvent := false,
          base_head_pose := none }
  now := 0
  pc := .top

/-- The literal reading of C1: in every execution from `c0`, an offset
application that occurs after a `reset()` return is never tagged with a
generation older than the generation that reset installed. -/
def NoOldGenAfterReset (hopDt : ℚ) (caps : Caps)
    (efeed : Nat → Chunk → Option (Nat × List Rec)) (c0 : Cfg) : Prop :=
  ∀ evs c', Steps hopDt caps efeed c0 evs c' →
    ∀ (i j g og : Nat) (o : ℚ × ℚ × ℚ × ℚ × ℚ × ℚ), i < j → evs[i]? = some (Ev.resetDone g) →
      evs[j]? = some (Ev.applied og o) → g ≤ og

/-- Counterexample to C1 as stated: `_apply_offsets` (line 406) runs
outside the state lock, after the generation check of lines 386-390.  If
`reset()` runs to completion in that window, the generation-0 offset is
still passed to the actuator after `reset` has returned and installed
generation 1. -/
theorem reset_cancellation_cex : ¬ NoOldGenAfterReset 1 capsFull efeedLoud cfgStart := by
  intro hN
  have htr : ∃ cF, Steps 1 capsFull efeedLoud cfgStart
      [Ev.resetDone 1, Ev.applied 0 (toOffsets recLoud)] cF := by
    exact ⟨_, Steps.head _ _ _ none _ (Step.popChunk cfgStart chunk0 [] rfl rfl rfl)
      (Steps.head _ _ _ none _ (Step.freshGen _ chunk0 rfl rfl)
        (Steps.head _ _ _ none _ (Step.ensureBase _ 0 chunk0 rfl)
          (Steps.head _ _ _ none _ (Step.engineFeedOk _ 0 chunk0 0 [recLoud] rfl rfl)
            (Steps.head _ _ _ none _ (Step.innerSnapshot _ 0 recLoud [] rfl rfl)
              (Steps.head _ _ _ none _
                (Step.tick _ MOVEMENT_LATENCY_S (by norm_num [MOVEMENT_LATENCY_S]))
                (Steps.head _ _ _ none _
                  (Step.proceedArm _ 0 recLoud [] _ _ rfl (by simp [lagDropCount])
                    (by norm_num [cfgStart, MOVEMENT_LATENCY_S]) rfl rfl)
                  (Steps.head _ _ _ (some (.resetDone _)) _ (Step.resetCall _)
                    (Steps.head _ _ _ (some (.applied 0 (toOffsets recLoud))) _
                      (Step.applyHit _ 0 recLoud [] rfl
                        (by norm_num [significant, recLoud]))
                      (Steps.refl _)))))))))⟩
  obtain ⟨cF, htr⟩ := htr
  have hcontra := hN _ _ htr 0 1 1 0 (toOffsets recLoud) (by norm_num) rfl rfl
  omega

/-- Configuration with an empty queue, used as a witness input. -/
def cfgIdle : Cfg where
  st := { generation := 0, base_ts := none, hops_done := 0, robot_speaking := true,
          audio_queue := [], swayState := 0, stopEvent := false, base_head_pose := none }
  now := 0
  pc := .top

/-- Configuration just after a `reset` installed generation 1, used as a
witness input. -/
def cfgReset : Cfg where
  st := { generation := 1, base_ts := none, hops_done := 0, robot_speaking := false,
          audio_queue := [], swayState := 0, stopEvent := false, base_head_pose := none }
  now := 0
  pc := .top

/-- Witness for `reset_cancellation`: from the configuration right after
a reset to generation 1 with the thread at the loop head, zero
old-generation offsets can ever be applied. -/
theorem reset_cancellation_witness :
    1 ≤ cfgReset.st.generation ∧ countOldApplied 1 [] ≤ oldPotential 1 cfgReset :=
  ⟨Nat.le_refl 1, reset_cancellation 1 capsFull efeedLoud 1 cfgReset [] cfgReset
    (Steps.refl cfgReset) (Nat.le_refl 1)⟩

/-- Witness for `hops_generation_invariant` at a concrete step (the
empty-queue poll). -/
theorem hops_generation_invariant_witness :
    Step 1 capsFull efeedLoud cfgIdle none cfgIdle ∧
    ((cfgIdle.st.generation = cfgIdle.st.generation ∧
        cfgIdle.st.hops_done ≤ cfgIdle.st.hops_done) ∨
      (none = some (Ev.resetDone (cfgIdle.st.generation + 1)) ∧
        cfgIdle.st.generation = cfgIdle.st.generation + 1 ∧ cfgIdle.st.hops_done = 0)) :=
  ⟨Step.popEmpty cfgIdle rfl rfl rfl,
    hops_generation_invariant 1 capsFull efeedLoud cfgIdle none cfgIdle
      (Step.popEmpty cfgIdle rfl rfl rfl)⟩

/-- The literal reading of C7's exit clause: from `c0`, the dispatch
thread is never found exited or crashed while the stop event is unset. -/
def ExitsOnlyViaStop (hopDt : ℚ) (caps : Caps)
    (efeed : Nat → Chunk → Option (Nat × List Rec)) (c0 : Cfg) : Prop :=
  ∀ evs c', Steps hopDt caps efeed c0 evs c' → c'.st.stopEvent = false →
    c'.pc ≠ PC.exited ∧ c'.pc ≠ PC.crashed

/-- Counterexample to C7 as stated: the body of `working_loop` is a
`try`/`finally` with no `except` (lines 325, 411), so an exception from
`sway.feed` while processing a chunk propagates and terminates the
dispatch thread although `stop()` was never called. -/
theorem loop_liveness_cex : ¬ ExitsOnlyViaStop 1 capsFull efeedFail cfgStart := by
  intro hN
  have htr : ∃ cF, Steps 1 capsFull efeedFail cfgStart [] cF ∧
      cF.pc = PC.crashed ∧ cF.st.stopEvent = false := by
    exact ⟨_, Steps.head _ _ _ none _ (Step.popChunk cfgStart chunk0 [] rfl rfl rfl)
      (Steps.head _ _ _ none _ (Step.freshGen _ chunk0 rfl rfl)
        (Steps.head _ _ _ none _ (Step.ensureBase _ 0 chunk0 rfl)
          (Steps.head _ _ _ none _ (Step.engineFeedErr _ 0 chunk0 rfl rfl)
            (Steps.refl _)))), rfl, rfl⟩
  obtain ⟨cF, htr, hpc, hstop⟩ := htr
  exact (hN [] cF htr hstop).2 hpc

/-- C7 amended: on an empty queue the loop sleeps and polls again, never
exiting; the thread reaches the exited state only from the loop head
with the stop event set; and the only other way it can terminate is an
envelope-engine exception escaping the `try`/`finally` while a chunk is
being processed. -/
theorem loop_liveness (hopDt : ℚ) (caps : Caps)
    (efeed : Nat → Chunk → Option (Nat × List Rec)) (c : Cfg) (e : Option Ev) (c' : Cfg)
    (h : Step hopDt caps efeed c e c') :
    (c.pc = PC.top → c.st.audio_queue = [] → c.st.stopEvent = false → c'.pc = PC.top) ∧
    (c'.pc = PC.exited → c.pc = PC.exited ∨ (c.pc = PC.top ∧ c.st.stopEvent = true)) ∧
    (c'.pc = PC.crashed → c.pc = PC.crashed ∨
      ∃ g ch, c.pc = PC.engineReady g ch ∧ efeed c.st.swayState ch = none) := by
  cases h <;> simp_all
  exact ⟨_, _, ⟨rfl, rfl⟩, by assumption⟩

/-- Witness for `loop_liveness` at the empty-queue poll step. -/
theorem loop_liveness_witness :
    Step 1 capsFull efeedLoud cfgIdle none cfgIdle ∧ cfgIdle.pc = PC.top :=
  ⟨Step.popEmpty cfgIdle rfl rfl rfl,
    (loop_liveness 1 capsFull efeedLoud cfgIdle none cfgIdle
      (Step.popEmpty cfgIdle rfl rfl rfl)).1 rfl rfl rfl⟩
